import Mathlib

/-!
Shallow embedding of the `inline` DOM-builder (`src/index.ts`, compiled form
`src/dist/inline.js`).  The library exports one function `$` that parses a
pug-style selector string (`tag#id.c1.c2`), creates a DOM element of the
extracted tag, assigns the extracted identifier, adds the extracted classes,
and then processes the trailing argument list left to right, dispatching each
argument on its runtime type (element / function / string / property bag).

The DOM is modelled purely: an element is a tree node carrying its tag,
identifier, class list, a generic property store, and an ordered child list.
In-place mutation is modelled by state passing, and a thrown exception by an
`Option JsErr` threaded alongside the element state.  Object identity (which
the DOM has and pure values lack) is modelled by a `ref : Nat` allocation
token stamped on the element at creation time.
-/

namespace Inline

/-- A JavaScript runtime value, as far as the claims need them: strings,
booleans, numbers (the claims only use integer literals), `null` and
`undefined`.  Used for property-bag values. -/
inductive Value where
  | str (s : String)
  | bool (b : Bool)
  | num (n : Int)
  | null
  | undefined
deriving DecidableEq, Repr

/-- A non-string JavaScript primitive.  Such a value fails the
`instanceof HTMLElement`, `typeof === 'function'` and `typeof === 'string'`
tests in `$` and therefore reaches the final `Object.assign` branch. -/
inductive Prim where
  | bool (b : Bool)
  | num (n : Int)
  | null
  | undefined
deriving DecidableEq, Repr

/-- A host-platform (JavaScript) exception.  `invalidCharacter` is the
`InvalidCharacterError` raised by `document.createElement` on an invalid tag
name; `thrown` is an arbitrary error raised by a user callback. -/
inductive JsErr where
  | invalidCharacter
  | thrown (msg : String)
deriving DecidableEq, Repr

mutual

/-- A DOM element: allocation token (object identity), tag name, `id`
property, class list (`classList`, an ordered set), a generic property store
for `Object.assign`ed keys, and the ordered child list. -/
inductive Element where
  | mk (ref : Nat) (tag : String) (idAttr : String) (classes : List String)
       (props : List (String × Value)) (children : List Node)

/-- A DOM child node: an element or a text node. -/
inductive Node where
  | elem (e : Element)
  | text (s : String)

end

/-- Allocation token of an element (models object identity). -/
def Element.ref : Element → Nat
  | .mk r _ _ _ _ _ => r

/-- Tag name of an element. -/
def Element.tag : Element → String
  | .mk _ t _ _ _ _ => t

/-- The element's `id` property (empty string when never assigned, as in the
DOM). -/
def Element.idAttr : Element → String
  | .mk _ _ i _ _ _ => i

/-- The element's class list, in insertion order. -/
def Element.classes : Element → List String
  | .mk _ _ _ cs _ _ => cs

/-- The element's generic property store. -/
def Element.props : Element → List (String × Value)
  | .mk _ _ _ _ ps _ => ps

/-- The element's ordered child list. -/
def Element.children : Element → List Node
  | .mk _ _ _ _ _ ch => ch

/-- Replace the allocation token (used only to reason about identity; no
program operation does this). -/
def Element.setRef : Element → Nat → Element
  | .mk _ t i cs ps ch, r => .mk r t i cs ps ch

/-- `el.id = s`. -/
def Element.setId : Element → String → Element
  | .mk r t _ cs ps ch, s => .mk r t s cs ps ch

/-- Replace the class list. -/
def Element.setClasses : Element → List String → Element
  | .mk r t i _ ps ch, cs => .mk r t i cs ps ch

/-- `el.appendChild(n)`: append `n` as the last child. -/
def Element.addChild : Element → Node → Element
  | .mk r t i cs ps ch, n => .mk r t i cs ps (ch ++ [n])

/-- Update an association list at a key, last-write-wins: replace the first
binding of the key in place, or append a fresh binding. -/
def updateProp : List (String × Value) → String → Value → List (String × Value)
  | [], k, v => [(k, v)]
  | (k', v') :: rest, k, v =>
    if k' = k then (k, v) :: rest else (k', v') :: updateProp rest k v

/-- Write one generic property on the element. -/
def Element.setProp : Element → String → Value → Element
  | .mk r t i cs ps ch, k, v => .mk r t i cs (updateProp ps k v) ch

/-- JavaScript string coercion of a `Value` (as a DOM string-valued property
setter such as `id` performs). -/
def Value.toJsString : Value → String
  | .str s => s
  | .bool true => "true"
  | .bool false => "false"
  | .num n => toString n
  | .null => "null"
  | .undefined => "undefined"

/-- Assign one enumerable key of a property bag onto the element
(`Object.assign` visits keys in order).  The key `"id"` hits the DOM `id`
setter (a string-valued attribute reflection); every other key lands in the
generic property store. -/
def assignOne (el : Element) (kv : String × Value) : Element :=
  if kv.1 = "id" then el.setId kv.2.toJsString else el.setProp kv.1 kv.2

/-- `Object.assign(el, bag)`: shallow-copy every enumerable key of the bag
onto the element, in key order. -/
def assign (el : Element) (kvs : List (String × Value)) : Element :=
  kvs.foldl assignOne el

/-- The character class `[a-zA-Z0-9-_]` shared by the three selector
regexes in `patterns` (src/index.ts lines 1-5). -/
def isWordChar (c : Char) : Bool :=
  c.isAlpha || c.isDigit || c = '-' || c = '_'

/-- `selector.match(/^([a-zA-Z0-9-_]+)/)?.[1] ?? 'div'` (src/index.ts
line 35): the maximal leading run of word characters, defaulting to `"div"`
when the string does not start with a word character. -/
def extractTag (l : List Char) : String :=
  let run := l.takeWhile isWordChar
  if run = [] then "div" else String.mk run

/-- `selector.match(/\#([a-zA-Z0-9-_]+)/)?.[1]` (src/index.ts line 39): the
regex engine scans left to right for the first position where `#` is
followed by at least one word character, and captures the maximal word-run
after that `#`.  A `#` not followed by a word character does not match, and
the scan continues at the next position. -/
def findId : List Char → Option String
  | [] => none
  | c :: rest =>
    if c = '#' then
      let run := rest.takeWhile isWordChar
      if run = [] then findId rest else some (String.mk run)
    else findId rest

/-- One global-regex scan step for `/\.([a-zA-Z0-9-_]+)/g` (src/index.ts
line 45): at each position, a `.` followed by at least one word character
yields a match whose capture is the maximal word-run, and the scan resumes
immediately after the matched run (`lastIndex` semantics); any other
position advances by one.  The `fuel` argument makes the recursion
structural; every step consumes at least one character, so `l.length` fuel
(see `findClasses`) is always sufficient. -/
def findClassesAux : Nat → List Char → List String
  | 0, _ => []
  | _ + 1, [] => []
  | fuel + 1, c :: rest =>
    if c = '.' then
      let run := rest.takeWhile isWordChar
      if run = [] then findClassesAux fuel rest
      else String.mk run :: findClassesAux fuel (rest.drop run.length)
    else findClassesAux fuel rest

/-- All captures of the global regex `/\.([a-zA-Z0-9-_]+)/g` over the
selector, in left-to-right match order (after the `.map((i) => i.slice(1))`
of src/index.ts line 45, which strips each match's leading dot). -/
def findClasses (l : List Char) : List String :=
  findClassesAux l.length l

/-- `DOMTokenList.add` for a single (validated, nonempty, whitespace-free)
token: appends the token unless already present. -/
def addClassToken (cs : List String) (c : String) : List String :=
  if c ∈ cs then cs else cs ++ [c]

/-- `el.classList.add(...classes)` (src/index.ts line 48): add every token
in order.  (The extracted class names are nonempty word-runs, so the DOM's
token validation never throws here.) -/
def Element.addClassList (el : Element) (cs : List String) : Element :=
  el.setClasses (cs.foldl addClassToken el.classes)

/-- A trailing argument of `$`, partitioned by the runtime type tests of
src/index.ts lines 51-65, which are mutually exclusive on JavaScript
values: an `HTMLElement` instance, a callable, a string, a plain object
(property bag), or a non-string primitive (which fails the first three
tests and reaches the `Object.assign` branch).  A callable is modelled as a
function from the element state to the mutated element state plus an
optional thrown error. -/
inductive Arg where
  | elem (e : Element)
  | fn (f : Element → Element × Option JsErr)
  | text (s : String)
  | bag (kvs : List (String × Value))
  | prim (p : Prim)

/-- Process one trailing argument (one iteration of the `rest.forEach` of
src/index.ts lines 51-65): an element is appended as the last child; a
callable is invoked with the element (its JavaScript return value is
discarded — the returned `Element` here models its in-place mutations, and
`some e` a thrown error); a string is appended as a text node with exactly
that text; a property bag is `Object.assign`ed; a non-string primitive
reaches `Object.assign`, whose primitive wrapper has no enumerable own
properties, so nothing changes (`Object.assign` also ignores `null` and
`undefined` sources). -/
def step (el : Element) : Arg → Element × Option JsErr
  | .elem c => (el.addChild (.elem c), none)
  | .fn f => f el
  | .text s => (el.addChild (.text s), none)
  | .bag kvs => (assign el kvs, none)
  | .prim _ => (el, none)

/-- `rest.forEach(...)`: process the trailing arguments strictly left to
right; a thrown error aborts the loop, leaving the element in its state at
the throw and the remaining arguments unprocessed. -/
def runArgs (el : Element) : List Arg → Element × Option JsErr
  | [] => (el, none)
  | a :: rest =>
    match step el a with
    | (el', none) => runArgs el' rest
    | (el', some e) => (el', some e)

/-- The selector-derived element (src/index.ts lines 35-49, given that
`document.createElement` succeeded): the fresh element of the extracted tag
(stamped with the allocation token `ref` the host gave it), with the
extracted identifier assigned if one was found (the capture is always
nonempty, so the source's truthiness test `if (id)` passes exactly when the
match succeeded), and the extracted classes added in match order. -/
def selectorElement (ref : Nat) (selector : String) : Element :=
  let el0 : Element := .mk ref (extractTag selector.data) "" [] [] []
  let el1 :=
    match findId selector.data with
    | some i => el0.setId i
    | none => el0
  el1.addClassList (findClasses selector.data)

/-- The builder `$` (src/index.ts lines 31-68), parameterised by the host
platform's tag-name validity predicate (`document.createElement` throws
`InvalidCharacterError` on a name outside the host's Name production — this
check lives in the browser, not in this library).  In source order: extract
the tag; create the element (throwing on an invalid tag, before any
mutation has happened); assign the identifier and the classes per the
selector; then fold over the trailing arguments.  The outer `Except` is a
creation-time throw (no element exists at all); in the `ok` case the
element state is paired with the optional error thrown during argument
processing. -/
def dollar (valid : String → Bool) (ref : Nat) (selector : String)
    (args : List Arg) : Except JsErr (Element × Option JsErr) :=
  if valid (extractTag selector.data) then
    .ok (runArgs (selectorElement ref selector) args)
  else
    .error .invalidCharacter

@[simp] lemma ref_mk (r t i cs ps ch) : (Element.mk r t i cs ps ch).ref = r := rfl

@[simp] lemma tag_mk (r t i cs ps ch) : (Element.mk r t i cs ps ch).tag = t := rfl

@[simp] lemma idAttr_mk (r t i cs ps ch) : (Element.mk r t i cs ps ch).idAttr = i := rfl

@[simp] lemma classes_mk (r t i cs ps ch) : (Element.mk r t i cs ps ch).classes = cs := rfl

@[simp] lemma props_mk (r t i cs ps ch) : (Element.mk r t i cs ps ch).props = ps := rfl

@[simp] lemma children_mk (r t i cs ps ch) : (Element.mk r t i cs ps ch).children = ch := rfl

@[simp] lemma ref_setRef (el : Element) (r : Nat) : (el.setRef r).ref = r := by
  cases el <;> rfl

@[simp] lemma tag_setRef (el : Element) (r : Nat) : (el.setRef r).tag = el.tag := by
  cases el <;> rfl

@[simp] lemma idAttr_setRef (el : Element) (r : Nat) : (el.setRef r).idAttr = el.idAttr := by
  cases el <;> rfl

@[simp] lemma classes_setRef (el : Element) (r : Nat) : (el.setRef r).classes = el.classes := by
  cases el <;> rfl

@[simp] lemma props_setRef (el : Element) (r : Nat) : (el.setRef r).props = el.props := by
  cases el <;> rfl

@[simp] lemma children_setRef (el : Element) (r : Nat) :
    (el.setRef r).children = el.children := by
  cases el <;> rfl

@[simp] lemma idAttr_setId (el : Element) (s : String) : (el.setId s).idAttr = s := by
  cases el <;> rfl

@[simp] lemma children_addChild (el : Element) (n : Node) :
    (el.addChild n).children = el.children ++ [n] := by
  cases el <;> rfl

lemma setId_setRef (el : Element) (r : Nat) (s : String) :
    (el.setRef r).setId s = (el.setId s).setRef r := by
  cases el <;> rfl

lemma setClasses_setRef (el : Element) (r : Nat) (cs : List String) :
    (el.setRef r).setClasses cs = (el.setClasses cs).setRef r := by
  cases el <;> rfl

lemma addChild_setRef (el : Element) (r : Nat) (n : Node) :
    (el.setRef r).addChild n = (el.addChild n).setRef r := by
  cases el <;> rfl

lemma setProp_setRef (el : Element) (r : Nat) (k : String) (v : Value) :
    (el.setRef r).setProp k v = (el.setProp k v).setRef r := by
  cases el <;> rfl

lemma assignOne_setRef (el : Element) (r : Nat) (kv : String × Value) :
    assignOne (el.setRef r) kv = (assignOne el kv).setRef r := by
  unfold assignOne
  by_cases h : kv.1 = "id"
  · simp [h, setId_setRef]
  · simp [h, setProp_setRef]

lemma assign_setRef (kvs : List (String × Value)) :
    ∀ (el : Element) (r : Nat), assign (el.setRef r) kvs = (assign el kvs).setRef r := by
  induction kvs with
  | nil => intro el r; rfl
  | cons kv kvs ih =>
    intro el r
    simp only [assign, List.foldl_cons] at *
    rw [assignOne_setRef, ih]

lemma addClassList_setRef (el : Element) (r : Nat) (cs : List String) :
    (el.setRef r).addClassList cs = (el.addClassList cs).setRef r := by
  unfold Element.addClassList
  rw [classes_setRef, setClasses_setRef]

/- Selector-scan lemmas. -/

lemma isWordChar_hash : isWordChar '#' = false := rfl

lemma isWordChar_dot : isWordChar '.' = false := rfl

lemma word_ne_dot {c : Char} (h : isWordChar c = true) : ¬(c = '.') := by
  intro hc; rw [hc] at h; exact absurd h (by decide)

lemma word_ne_hash {c : Char} (h : isWordChar c = true) : ¬(c = '#') := by
  intro hc; rw [hc] at h; exact absurd h (by decide)

lemma takeWhile_append_all (p : Char → Bool) :
    ∀ (l₁ l₂ : List Char), (∀ a ∈ l₁, p a = true) →
      (l₁ ++ l₂).takeWhile p = l₁ ++ l₂.takeWhile p := by
  intro l₁
  induction l₁ with
  | nil => intro l₂ _; rfl
  | cons a l₁ ih =>
    intro l₂ h
    have ha : p a = true := h a (List.mem_cons_self a l₁)
    simp only [List.cons_append, List.takeWhile_cons, ha, if_true]
    rw [ih l₂ (fun b hb => h b (List.mem_cons_of_mem a hb))]

lemma takeWhile_all_word {l : List Char} (h : ∀ a ∈ l, isWordChar a = true) :
    l.takeWhile isWordChar = l := by
  have := takeWhile_append_all isWordChar l [] h
  simpa using this

lemma findId_skip {c : Char} (hc : ¬(c = '#')) (l : List Char) :
    findId (c :: l) = findId l := by
  simp only [findId, hc, if_false]

lemma findId_append_nohash {p : List Char} (hp : ∀ c ∈ p, ¬(c = '#')) (r : List Char) :
    findId (p ++ r) = findId r := by
  induction p with
  | nil => rfl
  | cons c p ih =>
    rw [List.cons_append, findId_skip (hp c (List.mem_cons_self c p))]
    exact ih (fun a ha => hp a (List.mem_cons_of_mem c ha))

lemma findId_hash {run : List Char} (hne : run ≠ [])
    (hw : ∀ c ∈ run, isWordChar c = true) {r : List Char}
    (hr : r.takeWhile isWordChar = []) :
    findId ('#' :: (run ++ r)) = some (String.mk run) := by
  simp only [findId, if_pos rfl]
  rw [takeWhile_append_all isWordChar run r hw, hr, List.append_nil]
  simp [hne]

lemma findClassesAux_congr :
    ∀ (f₁ : Nat), ∀ (l : List Char) (f₂ : Nat), l.length ≤ f₁ → l.length ≤ f₂ →
      findClassesAux f₁ l = findClassesAux f₂ l := by
  intro f₁
  induction f₁ with
  | zero =>
    intro l f₂ h₁ _
    have : l = [] := List.eq_nil_of_length_eq_zero (Nat.le_zero.mp h₁)
    subst this
    cases f₂ <;> rfl
  | succ a ih =>
    intro l f₂ h₁ h₂
    cases l with
    | nil => cases f₂ <;> rfl
    | cons c rest =>
      cases f₂ with
      | zero => exact absurd h₂ (by simp)
      | succ b =>
        simp only [findClassesAux]
        by_cases hc : c = '.'
        · simp only [hc, if_pos rfl]
          by_cases hrun : rest.takeWhile isWordChar = []
          · simp only [hrun, if_pos rfl]
            exact ih rest b (Nat.le_of_succ_le_succ h₁) (Nat.le_of_succ_le_succ h₂)
          · simp only [hrun, if_neg hrun, if_true, if_false]
            have hd : (rest.drop (rest.takeWhile isWordChar).length).length ≤ rest.length := by
              rw [List.length_drop]; omega
            rw [ih (rest.drop (rest.takeWhile isWordChar).length) b
              (Nat.le_trans hd (Nat.le_of_succ_le_succ h₁))
              (Nat.le_trans hd (Nat.le_of_succ_le_succ h₂))]
        · simp only [hc, if_neg hc]
          exact ih rest b (Nat.le_of_succ_le_succ h₁) (Nat.le_of_succ_le_succ h₂)

lemma findClasses_skip {c : Char} (hc : ¬(c = '.')) (l : List Char) :
    findClasses (c :: l) = findClasses l := by
  simp only [findClasses, List.length_cons, findClassesAux, hc, if_false]

lemma findClasses_append_nodot {p : List Char} (hp : ∀ c ∈ p, ¬(c = '.')) (r : List Char) :
    findClasses (p ++ r) = findClasses r := by
  induction p with
  | nil => rfl
  | cons c p ih =>
    rw [List.cons_append, findClasses_skip (hp c (List.mem_cons_self c p))]
    exact ih (fun a ha => hp a (List.mem_cons_of_mem c ha))

lemma findClasses_dot {run : List Char} (hne : run ≠ [])
    (hw : ∀ c ∈ run, isWordChar c = true) {r : List Char}
    (hr : r.takeWhile isWordChar = []) :
    findClasses ('.' :: (run ++ r)) = String.mk run :: findClasses r := by
  have htw : (run ++ r).takeWhile isWordChar = run := by
    rw [takeWhile_append_all isWordChar run r hw, hr, List.append_nil]
  simp only [findClasses, List.length_cons, findClassesAux, if_pos rfl, htw, hne,
    if_neg hne, if_true, if_false]
  rw [List.drop_left]
  congr 1
  exact findClassesAux_congr (run ++ r).length r r.length (by simp) (Nat.le_refl _)

/- Argument-processing lemmas. -/

lemma runArgs_append (xs : List Arg) :
    ∀ (el : Element) (ys : List Arg),
      runArgs el (xs ++ ys) =
        (match runArgs el xs with
         | (el', none) => runArgs el' ys
         | (el', some e) => (el', some e)) := by
  induction xs with
  | nil => intro el ys; rfl
  | cons a xs ih =>
    intro el ys
    simp only [List.cons_append, runArgs]
    rcases h : step el a with ⟨el', err⟩
    cases err with
    | none => exact ih el' ys
    | some e => rfl

lemma runArgs_prim (pre : List Arg) (p : Prim) :
    ∀ (el : Element) (post : List Arg),
      runArgs el (pre ++ Arg.prim p :: post) = runArgs el (pre ++ post) := by
  induction pre with
  | nil => intro el post; rfl
  | cons a pre ih =>
    intro el post
    simp only [List.cons_append, runArgs]
    rcases h : step el a with ⟨el', err⟩
    cases err with
    | none => exact ih el' post
    | some e => rfl

lemma dollar_prim (valid : String → Bool) (r : Nat) (sel : String)
    (pre post : List Arg) (p : Prim) :
    dollar valid r sel (pre ++ Arg.prim p :: post) = dollar valid r sel (pre ++ post) := by
  unfold dollar
  by_cases h : valid (extractTag sel.data) = true
  · simp only [h, if_true, runArgs_prim]
  · simp only [if_neg h]

/-- A callable whose behaviour does not depend on, and does not change, the
identity of the element it receives: it commutes with replacing the
element's allocation token.  This models an ordinary callback that inspects
and mutates the element it is given without comparing it against
externally retained references. -/
def RefAgnostic (f : Element → Element × Option JsErr) : Prop :=
  ∀ (el : Element) (r : Nat), f (el.setRef r) = ((f el).1.setRef r, (f el).2)

lemma step_setRef (el : Element) (r : Nat) (a : Arg)
    (ha : ∀ f, a = Arg.fn f → RefAgnostic f) :
    step (el.setRef r) a = ((step el a).1.setRef r, (step el a).2) := by
  cases a with
  | elem c => simp only [step, addChild_setRef]
  | fn f => exact ha f rfl el r
  | text s => simp only [step, addChild_setRef]
  | bag kvs => simp only [step, assign_setRef]
  | prim p => simp only [step]

lemma runArgs_setRef (args : List Arg)
    (ha : ∀ a ∈ args, ∀ f, a = Arg.fn f → RefAgnostic f) :
    ∀ (el : Element) (r : Nat),
      runArgs (el.setRef r) args = ((runArgs el args).1.setRef r, (runArgs el args).2) := by
  induction args with
  | nil => intro el r; rfl
  | cons a args ih =>
    intro el r
    simp only [runArgs]
    rw [step_setRef el r a (ha a (List.mem_cons_self a args))]
    rcases h : step el a with ⟨el', err⟩
    cases err with
    | none =>
      simp only
      exact ih (fun b hb => ha b (List.mem_cons_of_mem a hb)) el' r
    | some e => rfl

lemma selectorElement_setRef (r : Nat) (sel : String) :
    selectorElement r sel = (selectorElement 0 sel).setRef r := by
  unfold selectorElement
  have hmk : (Element.mk r (extractTag sel.data) "" [] [] [])
      = (Element.mk 0 (extractTag sel.data) "" [] [] []).setRef r := rfl
  rw [hmk]
  cases hid : findId sel.data with
  | none => simp only [addClassList_setRef]
  | some i => simp only [setId_setRef, addClassList_setRef]

lemma dollar_pos (valid : String → Bool) (r : Nat) (sel : String) (args : List Arg)
    (h : valid (extractTag sel.data) = true) :
    dollar valid r sel args = .ok (runArgs (selectorElement r sel) args) := by
  unfold dollar
  rw [if_pos h]

lemma dollar_neg (valid : String → Bool) (r : Nat) (sel : String) (args : List Arg)
    (h : valid (extractTag sel.data) = false) :
    dollar valid r sel args = .error .invalidCharacter := by
  unfold dollar
  simp only [h, Bool.false_eq_true, if_false]

lemma dollar_setRef (valid : String → Bool) (r : Nat) (sel : String) (args : List Arg)
    (ha : ∀ a ∈ args, ∀ f, a = Arg.fn f → RefAgnostic f) :
    dollar valid r sel args =
      (match dollar valid 0 sel args with
       | .ok (el, err) => .ok (el.setRef r, err)
       | .error e => .error e) := by
  unfold dollar
  by_cases h : valid (extractTag sel.data) = true
  · simp only [h, if_true]
    rw [selectorElement_setRef, runArgs_setRef args ha]
  · simp only [if_neg h]

/-- C2: the trailing argument list is processed strictly left to right with
exactly one action per argument, chosen by the fixed priority test of
src/index.ts lines 51-65: an element instance is appended as the last
child; a callable is invoked synchronously with the element as its sole
argument (its return value is discarded — the pair returned by `f` is the
model of its in-place mutations and optional thrown error); a string is
appended as a new text node containing exactly that string; any other
argument is treated as a property bag whose enumerable keys are
shallow-assigned onto the element.  The final conjunct is the strict
left-to-right sequencing law: a list of arguments is processed by first
processing the prefix and, if no error was thrown, continuing with the
suffix from the resulting state. -/
theorem C2_args_left_to_right_dispatch (el c : Element) (s : String)
    (f : Element → Element × Option JsErr) (kvs : List (String × Value))
    (xs ys : List Arg) :
    step el (Arg.elem c) = (el.addChild (Node.elem c), none)
    ∧ (el.addChild (Node.elem c)).children = el.children ++ [Node.elem c]
    ∧ step el (Arg.fn f) = f el
    ∧ step el (Arg.text s) = (el.addChild (Node.text s), none)
    ∧ (el.addChild (Node.text s)).children = el.children ++ [Node.text s]
    ∧ step el (Arg.bag kvs) = (assign el kvs, none)
    ∧ runArgs el (xs ++ ys) =
        (match runArgs el xs with
         | (el', none) => runArgs el' ys
         | (el', some e) => (el', some e)) :=
  ⟨rfl, by simp, rfl, rfl, by simp, rfl, runArgs_append xs el ys⟩

/-- C3: passing `false`, `null` or `undefined` as a trailing argument is a
no-op: the call returns exactly what the same call without that argument
returns (same element, same classes, children and properties, and no error
is raised). -/
theorem C3_falsy_arg_noop (valid : String → Bool) (r : Nat) (sel : String)
    (pre post : List Arg) (p : Prim)
    (hp : p = Prim.bool false ∨ p = Prim.null ∨ p = Prim.undefined) :
    dollar valid r sel (pre ++ Arg.prim p :: post) = dollar valid r sel (pre ++ post) :=
  dollar_prim valid r sel pre post p

theorem C3_falsy_arg_noop_witness :
    dollar (fun _ => true) 0 "p" [Arg.prim Prim.null] = dollar (fun _ => true) 0 "p" [] :=
  C3_falsy_arg_noop (fun _ => true) 0 "p" [] [] Prim.null (Or.inr (Or.inl rfl))

/-- C7: when the extracted tag name is rejected by the host platform's
element-creation validity check, `$` returns the propagated
`InvalidCharacterError` uncaught, and no element is produced at all — no
identifier, class, child or property mutation ever happens, because element
creation precedes every mutation step. -/
theorem C7_invalid_tag_no_mutation (valid : String → Bool) (r : Nat) (sel : String)
    (args : List Arg) (h : valid (extractTag sel.data) = false) :
    dollar valid r sel args = .error JsErr.invalidCharacter :=
  dollar_neg valid r sel args h

theorem C7_invalid_tag_no_mutation_witness :
    dollar (fun _ => false) 0 "div" [Arg.text "x"] = .error JsErr.invalidCharacter :=
  C7_invalid_tag_no_mutation (fun _ => false) 0 "div" [Arg.text "x"] rfl

/-- C8: the malformed selector `div#a#b` produces an element with tag
`div`, identifier `a` and no classes, raising no error: the identifier
regex takes only the first `#`-run, and the second `#b` matches neither the
identifier nor the class extraction, so it is silently dropped. -/
theorem C8_double_hash_silently_dropped :
    dollar (fun _ => true) 0 "div#a#b" [] =
      .ok (Element.mk 0 "div" "a" [] [] [], none) := rfl

/-- C10: any non-string primitive trailing argument — `true`, any number
such as `0` or `5`, as well as `false`, `null` and `undefined` — is a
no-op on the element and raises no error: it falls through to the
property-bag branch, where `Object.assign` from a primitive (whose wrapper
has no enumerable own properties; `null` and `undefined` sources are
skipped outright) changes nothing.  This extends the tolerated no-op set
beyond the `false`/`null`/`undefined` values the spec guarantees. -/
theorem C10_primitive_arg_noop (valid : String → Bool) (r : Nat) (sel : String)
    (pre post : List Arg) (p : Prim) :
    dollar valid r sel (pre ++ Arg.prim p :: post) = dollar valid r sel (pre ++ post) :=
  dollar_prim valid r sel pre post p

/-- C4: whenever the leading alphanumeric/hyphen/underscore run of the
selector is empty or absent, the extracted tag defaults to `div`; and for a
selector with no tag, identifier or class marker at all (the empty string
included) — i.e. additionally no `#`-run and no `.`-run matches anywhere —
`$` returns a plain `div` element with no identifier set and no classes. -/
theorem C4_empty_selector_defaults_to_div (valid : String → Bool) (r : Nat)
    (sel : String) (h1 : sel.data.takeWhile isWordChar = []) :
    extractTag sel.data = "div"
    ∧ (findId sel.data = none → findClasses sel.data = [] → valid "div" = true →
        dollar valid r sel [] = .ok (Element.mk r "div" "" [] [] [], none)) := by
  have htag : extractTag sel.data = "div" := by
    unfold extractTag
    rw [h1]
    rfl
  refine ⟨htag, fun h2 h3 hv => ?_⟩
  have hse : selectorElement r sel = Element.mk r "div" "" [] [] [] := by
    unfold selectorElement
    rw [htag, h2, h3]
    rfl
  rw [dollar_pos valid r sel [] (by rw [htag]; exact hv), hse]
  rfl

theorem C4_empty_selector_defaults_to_div_witness :
    dollar (fun _ => true) 0 "" [] = .ok (Element.mk 0 "div" "" [] [] [], none) :=
  (C4_empty_selector_defaults_to_div (fun _ => true) 0 "" rfl).2 rfl rfl rfl

/-- C5: when the selector contains an identifier `#y` and a trailing
property-bag argument contains an `id` key with value `x`, the returned
element's identifier is `x`: the bag is assigned after the selector-derived
identifier assignment, so the last-applied value wins. -/
theorem C5_bag_id_overrides_selector_id (valid : String → Bool) (r : Nat)
    (sel : String) (y x : String) (hid : findId sel.data = some y)
    (hv : valid (extractTag sel.data) = true) :
    ∃ el, dollar valid r sel [Arg.bag [("id", Value.str x)]] = .ok (el, none)
      ∧ el.idAttr = x := by
  have hrun : ∀ el : Element,
      runArgs el [Arg.bag [("id", Value.str x)]] = (el.setId x, none) := fun el => rfl
  rw [dollar_pos valid r sel _ hv, hrun]
  exact ⟨_, rfl, by simp⟩

theorem C5_bag_id_overrides_selector_id_witness :
    ∃ el, dollar (fun _ => true) 0 "div#y" [Arg.bag [("id", Value.str "x")]]
        = .ok (el, none) ∧ el.idAttr = "x" :=
  C5_bag_id_overrides_selector_id (fun _ => true) 0 "div#y" "y" "x" rfl rfl

/-- C6: if the callable at position N of the trailing argument list throws,
the error propagates unchanged to the caller, every mutation applied by the
selector and by arguments 1..N-1 remains in place (the element state at the
abort is the callable's output, built from the state `elPre` reached after
the earlier arguments — no rollback happens), and the arguments after
position N are never processed (the result does not depend on `post`). -/
theorem C6_callable_throw_aborts (valid : String → Bool) (r : Nat) (sel : String)
    (pre post : List Arg) (f : Element → Element × Option JsErr)
    (elPre elF : Element) (e : JsErr)
    (hpre : dollar valid r sel pre = .ok (elPre, none))
    (hf : f elPre = (elF, some e)) :
    dollar valid r sel (pre ++ Arg.fn f :: post) = .ok (elF, some e) := by
  by_cases hv : valid (extractTag sel.data) = true
  · rw [dollar_pos valid r sel pre hv] at hpre
    have h2 : runArgs (selectorElement r sel) pre = (elPre, none) := by
      injection hpre
    rw [dollar_pos valid r sel _ hv, runArgs_append, h2]
    simp only [runArgs, step, hf]
  · rw [dollar_neg valid r sel pre (Bool.not_eq_true _ ▸ hv)] at hpre
    exact absurd hpre (by simp)

theorem C6_callable_throw_aborts_witness :
    dollar (fun _ => true) 0 "p"
        ([Arg.text "a"] ++ Arg.fn (fun el => (el, some (JsErr.thrown "boom")))
          :: [Arg.text "b"]) =
      .ok (Element.mk 0 "p" "" [] [] [Node.text "a"], some (JsErr.thrown "boom")) :=
  C6_callable_throw_aborts (fun _ => true) 0 "p" [Arg.text "a"] [Arg.text "b"]
    (fun el => (el, some (JsErr.thrown "boom")))
    (Element.mk 0 "p" "" [] [] [Node.text "a"])
    (Element.mk 0 "p" "" [] [] [Node.text "a"]) (JsErr.thrown "boom") rfl rfl

/-- C1: for every selector of the form `tag#id.c1.c2` — with `tag`, `id`,
`c1`, `c2` nonempty runs of alphanumeric/hyphen/underscore characters — the
element returned by `$` has tag name `tag`, identifier `id`, and class
membership exactly `{c1, c2}`, the classes having been added in
left-to-right order of their appearance in the selector (the class list is
the result of adding `c1` and then `c2` to the empty token list). -/
theorem C1_full_selector_parse (valid : String → Bool) (r : Nat)
    (t i c1 c2 : List Char)
    (ht : t ≠ []) (htw : ∀ c ∈ t, isWordChar c = true)
    (hi : i ≠ []) (hiw : ∀ c ∈ i, isWordChar c = true)
    (hc1 : c1 ≠ []) (hc1w : ∀ c ∈ c1, isWordChar c = true)
    (hc2 : c2 ≠ []) (hc2w : ∀ c ∈ c2, isWordChar c = true)
    (hv : valid (String.mk t) = true) :
    ∃ el,
      dollar valid r (String.mk (t ++ '#' :: (i ++ '.' :: (c1 ++ '.' :: c2)))) [] =
        .ok (el, none)
      ∧ el.tag = String.mk t
      ∧ el.idAttr = String.mk i
      ∧ el.classes = addClassToken (addClassToken [] (String.mk c1)) (String.mk c2)
      ∧ ∀ c, c ∈ el.classes ↔ (c = String.mk c1 ∨ c = String.mk c2) := by
  have hhash : List.takeWhile isWordChar ('#' :: (i ++ '.' :: (c1 ++ '.' :: c2))) = [] := rfl
  have htag : extractTag (t ++ '#' :: (i ++ '.' :: (c1 ++ '.' :: c2))) = String.mk t := by
    unfold extractTag
    rw [takeWhile_append_all isWordChar t _ htw, hhash, List.append_nil]
    simp [ht]
  have hid : findId (t ++ '#' :: (i ++ '.' :: (c1 ++ '.' :: c2))) = some (String.mk i) := by
    rw [findId_append_nohash (fun c hc => word_ne_hash (htw c hc))]
    exact findId_hash hi hiw rfl
  have hlast : findClasses ('.' :: c2) = [String.mk c2] := by
    have hc2e : ('.' :: c2) = '.' :: (c2 ++ []) := by rw [List.append_nil]
    rw [hc2e,
      findClasses_dot hc2 hc2w (rfl : List.takeWhile isWordChar [] = [])]
    rfl
  have hcls : findClasses (t ++ '#' :: (i ++ '.' :: (c1 ++ '.' :: c2)))
      = [String.mk c1, String.mk c2] := by
    rw [findClasses_append_nodot (fun c hc => word_ne_dot (htw c hc))]
    rw [findClasses_skip (by decide : ¬('#' = '.'))]
    rw [findClasses_append_nodot (fun c hc => word_ne_dot (hiw c hc))]
    rw [findClasses_dot hc1 hc1w
      (rfl : List.takeWhile isWordChar ('.' :: c2) = []), hlast]
  have hse : selectorElement r (String.mk (t ++ '#' :: (i ++ '.' :: (c1 ++ '.' :: c2)))) =
      Element.mk r (String.mk t) (String.mk i)
        (addClassToken (addClassToken [] (String.mk c1)) (String.mk c2)) [] [] := by
    unfold selectorElement
    simp only [htag, hid, hcls]
    rfl
  have h1st : addClassToken [] (String.mk c1) = [String.mk c1] := by
    simp [addClassToken]
  have hmem : ∀ c, c ∈ addClassToken (addClassToken [] (String.mk c1)) (String.mk c2) ↔
      (c = String.mk c1 ∨ c = String.mk c2) := by
    intro c
    rw [h1st]
    by_cases he : String.mk c2 = String.mk c1
    · rw [show addClassToken [String.mk c1] (String.mk c2) = [String.mk c1] by
        simp [addClassToken, he]]
      rw [List.mem_singleton]
      constructor
      · exact Or.inl
      · rintro (h | h)
        · exact h
        · rw [h, he]
    · rw [show addClassToken [String.mk c1] (String.mk c2)
          = [String.mk c1, String.mk c2] by simp [addClassToken, he]]
      simp
  refine ⟨Element.mk r (String.mk t) (String.mk i)
    (addClassToken (addClassToken [] (String.mk c1)) (String.mk c2)) [] [], ?_, by simp,
    by simp, by simp, fun c => by simpa using hmem c⟩
  rw [dollar_pos valid r _ [] (by rw [String.data]; rw [htag]; exact hv), hse]
  rfl

theorem C1_full_selector_parse_witness :
    ∃ el,
      dollar (fun _ => true) 0
          (String.mk (['a'] ++ '#' :: (['b'] ++ '.' :: (['c'] ++ '.' :: ['d'])))) [] =
        .ok (el, none)
      ∧ el.tag = String.mk ['a']
      ∧ el.idAttr = String.mk ['b']
      ∧ el.classes = addClassToken (addClassToken [] (String.mk ['c'])) (String.mk ['d'])
      ∧ ∀ c, c ∈ el.classes ↔ (c = String.mk ['c'] ∨ c = String.mk ['d']) :=
  C1_full_selector_parse (fun _ => true) 0 ['a'] ['b'] ['c'] ['d']
    (by decide) (by decide) (by decide) (by decide) (by decide) (by decide)
    (by decide) (by decide) rfl

/-- C9: two calls of `$` with identical arguments — containing no element
instance (which would be shared between the calls and stolen by the second)
and no identity-sensitive callable — return elements that are structurally
equivalent (same tag, identifier, classes, children and properties) but
distinct, non-identical instances (different allocation tokens, hence
unequal). -/
theorem C9_structural_equiv_distinct (valid : String → Bool) (r1 r2 : Nat)
    (sel : String) (args : List Arg) (e1 e2 : Element)
    (hargs : ∀ a ∈ args, (∀ c, a ≠ Arg.elem c) ∧ (∀ f, a = Arg.fn f → RefAgnostic f))
    (hr : r1 ≠ r2)
    (h1 : dollar valid r1 sel args = .ok (e1, none))
    (h2 : dollar valid r2 sel args = .ok (e2, none)) :
    e1.tag = e2.tag ∧ e1.idAttr = e2.idAttr ∧ e1.classes = e2.classes
      ∧ e1.children = e2.children ∧ e1.props = e2.props ∧ e1 ≠ e2 := by
  have hfn : ∀ a ∈ args, ∀ f, a = Arg.fn f → RefAgnostic f := fun a ha => (hargs a ha).2
  rw [dollar_setRef valid r1 sel args hfn] at h1
  rw [dollar_setRef valid r2 sel args hfn] at h2
  cases h0 : dollar valid 0 sel args with
  | error e =>
    rw [h0] at h1
    exact absurd h1 (by simp)
  | ok pair =>
    rcases pair with ⟨e0, err⟩
    rw [h0] at h1 h2
    simp only at h1 h2
    injection h1 with h1'
    injection h2 with h2'
    injection h1' with ha1 hb1
    injection h2' with ha2 hb2
    rw [← ha1, ← ha2]
    refine ⟨by simp, by simp, by simp, by simp, by simp, ?_⟩
    intro heq
    apply hr
    have := congrArg Element.ref heq
    simpa using this

theorem C9_structural_equiv_distinct_witness :
    (Element.mk 0 "div" "" [] [] [Node.text "a"]).tag
        = (Element.mk 1 "div" "" [] [] [Node.text "a"]).tag
    ∧ (Element.mk 0 "div" "" [] [] [Node.text "a"]).idAttr
        = (Element.mk 1 "div" "" [] [] [Node.text "a"]).idAttr
    ∧ (Element.mk 0 "div" "" [] [] [Node.text "a"]).classes
        = (Element.mk 1 "div" "" [] [] [Node.text "a"]).classes
    ∧ (Element.mk 0 "div" "" [] [] [Node.text "a"]).children
        = (Element.mk 1 "div" "" [] [] [Node.text "a"]).children
    ∧ (Element.mk 0 "div" "" [] [] [Node.text "a"]).props
        = (Element.mk 1 "div" "" [] [] [Node.text "a"]).props
    ∧ Element.mk 0 "div" "" [] [] [Node.text "a"]
        ≠ Element.mk 1 "div" "" [] [] [Node.text "a"] :=
  C9_structural_equiv_distinct (fun _ => true) 0 1 "div" [Arg.text "a"]
    (Element.mk 0 "div" "" [] [] [Node.text "a"])
    (Element.mk 1 "div" "" [] [] [Node.text "a"])
    (by
      intro a ha
      rw [List.mem_singleton] at ha
      subst ha
      exact ⟨fun c h => Arg.noConfusion h, fun f h => Arg.noConfusion h⟩)
    (by decide) rfl rfl

end Inline
